import Mathlib

/-!
Verification development for the stock-price candlestick chart web application
(`main.py`).  The Python handlers and helpers are shallowly embedded as Lean
functions; external collaborators (the market-data provider, the webhook
signature verifier, the message extractor) are passed as function parameters.

Conventions:
* machine floats of the price series are modelled as rationals (`Rat`);
* a pandas `NaN` cell of the moving-average columns is modelled as `none`;
* the record store (table `search_records`) is modelled as a list of records
  in insertion order, the surrogate `id` being assigned by the store;
* HTTP responses are modelled by small inductive types that record the
  branch taken (flash message and redirect target, rendered chart, 400, ...).

Date parsing follows CPython `_strptime` for the fixed format `%Y-%m-%d`:
the format compiles to the regular expression
`(?P<Y>\d\d\d\d)-(?P<m>1[0-2]|0[1-9]|[1-9])-(?P<d>3[0-1]|[1-2]\d|0[1-9]|[1-9]| [1-9])`,
the match must consume the whole input, and the matched numbers must form a
constructible `datetime.date` (year at least 1, day at most the month length).
The class `\d` matches any Unicode decimal digit (category Nd): the runs of
ten code points listed in `ndZeros` (Unicode 14.0, the table of CPython
3.11), with `int()` mapping each digit to its offset in its run.  The
bracketed ranges written out in the pattern are ASCII-only, and the last
alternative of `%d` is a space-padded single digit.
-/

/-- Code points of the zero digit of each Unicode 14.0 decimal-digit (Nd)
run.  Every such run is ten consecutive code points whose decimal values
are 0..9; CPython 3.11 uses this data both for the regex class `\d` on a
`str` and for `int()`. -/
def ndZeros : List Nat :=
  [48, 1632, 1776, 1984, 2406, 2534, 2662, 2790, 2918, 3046, 3174, 3302,
    3430, 3558, 3664, 3792, 3872, 4160, 4240, 6112, 6160, 6470, 6608, 6784,
    6800, 6992, 7088, 7232, 7248, 42528, 43216, 43264, 43472, 43504, 43600,
    44016, 65296, 66720, 68912, 69734, 69872, 69942, 70096, 70384, 70736,
    70864, 71248, 71360, 71472, 71904, 72016, 72784, 73040, 73120, 92768,
    92864, 93008, 120782, 120792, 120802, 120812, 120822, 123200, 123632,
    125264, 130032]

/-- The regex class `\d` on a Python `str`: any Unicode decimal digit. -/
def isDigitUni (c : Char) : Bool :=
  ndZeros.any (fun z => z ≤ c.toNat && c.toNat ≤ z + 9)

/-- Decimal value of a digit character, as `int()` computes it: the offset
of the code point within its decimal-digit run. -/
def digVal (c : Char) : Nat :=
  match ndZeros.find? (fun z => z ≤ c.toNat && c.toNat ≤ z + 9) with
  | some z => c.toNat - z
  | none => 0

/-- Base-ten value of a digit string, as `int()` computes it. -/
def natOfDigits (l : List Char) : Nat := l.foldl (fun n c => 10 * n + digVal c) 0

/-- The month token of `%m`: the characters standing between the two literal
dashes, accepted exactly when the regex alternatives `1[0-2]|0[1-9]|[1-9]`
consume the whole token. -/
def monthOfToken : List Char → Option Nat
  | [c] => if 49 ≤ c.toNat ∧ c.toNat ≤ 57 then some (c.toNat - 48) else none
  | [c, d] =>
    if c.toNat = 49 ∧ 48 ≤ d.toNat ∧ d.toNat ≤ 50 then some (10 + (d.toNat - 48))
    else if c.toNat = 48 ∧ 49 ≤ d.toNat ∧ d.toNat ≤ 57 then some (d.toNat - 48)
    else none
  | _ => none

/-- The day token of `%d`: the characters after the second literal dash,
accepted exactly when the alternatives `3[0-1]|[1-2]\d|0[1-9]|[1-9]| [1-9]`
consume the whole token.  The second character of the `[1-2]\d` alternative
may be any Unicode decimal digit, and the last alternative is an ASCII
space followed by a single nonzero ASCII digit (`int()` ignores the
space). -/
def dayOfToken : List Char → Option Nat
  | [c] => if 49 ≤ c.toNat ∧ c.toNat ≤ 57 then some (c.toNat - 48) else none
  | [c, d] =>
    if c.toNat = 51 ∧ (d.toNat = 48 ∨ d.toNat = 49) then some (30 + (d.toNat - 48))
    else if (c.toNat = 49 ∨ c.toNat = 50) ∧ isDigitUni d then
      some (10 * (c.toNat - 48) + digVal d)
    else if c.toNat = 48 ∧ 49 ≤ d.toNat ∧ d.toNat ≤ 57 then some (d.toNat - 48)
    else if c.toNat = 32 ∧ 49 ≤ d.toNat ∧ d.toNat ≤ 57 then some (d.toNat - 48)
    else none
  | _ => none

/-- Parse `<month token>-<day token>`, the part of the input after `YYYY-`.
The month token runs up to the next dash (digit tokens contain no dash). -/
def parseMD (rest : List Char) : Option (Nat × Nat) :=
  let mTok := rest.takeWhile (fun c => c != '-')
  match monthOfToken mTok, dayOfToken (rest.drop (mTok.length + 1)) with
  | some m, some d => some (m, d)
  | _, _ => none

/-- CPython `_DAYS_IN_MONTH` (index `m - 1`). -/
def daysInMonthTable : List Nat := [31, 28, 31, 30, 31, 30, 31, 31, 30, 31, 30, 31]

/-- CPython `datetime._is_leap`. -/
def isLeapPy (y : Nat) : Bool := y % 4 == 0 && (y % 100 != 0 || y % 400 == 0)

/-- CPython `datetime._days_in_month`. -/
def days_in_month (y m : Nat) : Nat :=
  if m = 2 ∧ isLeapPy y then 29 else daysInMonthTable.getD (m - 1) 0

/-- The whole of `datetime.strptime` for `%Y-%m-%d` on the character list:
four digits of `%Y`, a literal dash, then the month/day tokens; the
resulting numbers must form a constructible date, else `ValueError`
(modelled as `none`). -/
def parseDateList : List Char → Option (Nat × Nat × Nat)
  | c1 :: c2 :: c3 :: c4 :: c5 :: rest =>
    if isDigitUni c1 && isDigitUni c2 && isDigitUni c3 && isDigitUni c4 && (c5 == '-') then
      match parseMD rest with
      | some (m, d) =>
        let y := natOfDigits [c1, c2, c3, c4]
        if 1 ≤ y ∧ d ≤ days_in_month y m then some (y, m, d) else none
      | none => none
    else none
  | _ => none

/-- `datetime.strptime(s, "%Y-%m-%d")` on a string. -/
def parseDateYMD (s : String) : Option (Nat × Nat × Nat) := parseDateList s.toList

/-- `is_valid_date_format` of `main.py`: `strptime` succeeds (`True`) or
raises `ValueError` (caught, `False`).  Total: no exception escapes. -/
def is_valid_date_format (s : String) : Bool := (parseDateYMD s).isSome

/-- `startsWithL n l` holds when `n` is an initial segment of `l`. -/
def startsWithL : List Char → List Char → Bool
  | [], _ => true
  | _ :: _, [] => false
  | a :: as, b :: bs => a == b && startsWithL as bs

/-- Substring occurrence test, the model of the Python operator `in` on
strings. -/
def containsSub (needle : List Char) : List Char → Bool
  | [] => startsWithL needle []
  | c :: cs => startsWithL needle (c :: cs) || containsSub needle cs

/-- The ticker format check of the home handler (`main.py` line 74):
`'.TW' in searched_ticker or '.TWO' in searched_ticker`. -/
def is_valid_ticker_suffix (t : String) : Bool :=
  containsSub ".TW".toList t.toList || containsSub ".TWO".toList t.toList

/-! ### Spec-side predicates for the date validator -/

/-- Spec-side digit predicate. -/
def IsDigitCh (c : Char) : Prop := 48 ≤ c.toNat ∧ c.toNat ≤ 57

/-- Spec-side month length, written out by case. -/
def monthLength (y m : Nat) : Nat :=
  if m = 1 ∨ m = 3 ∨ m = 5 ∨ m = 7 ∨ m = 8 ∨ m = 10 ∨ m = 12 then 31
  else if m = 4 ∨ m = 6 ∨ m = 9 ∨ m = 11 then 30
  else if m = 2 then (if y % 4 = 0 ∧ (¬ y % 100 = 0 ∨ y % 400 = 0) then 29 else 28)
  else 0

/-- Spec-side Unicode-digit predicate: the character lies in one of the
decimal-digit runs. -/
def IsDigitU (c : Char) : Prop := ∃ z ∈ ndZeros, z ≤ c.toNat ∧ c.toNat ≤ z + 9

/-- The day shapes the code accepts: one or two ASCII digits of value
1..31, an ASCII space followed by an ASCII digit 1-9, or an ASCII `1` or
`2` followed by any Unicode decimal digit. -/
def DayShape (ds : List Char) (d : Nat) : Prop :=
  ((ds.length = 1 ∨ ds.length = 2) ∧ (∀ c ∈ ds, IsDigitCh c) ∧ natOfDigits ds = d
    ∧ 1 ≤ d ∧ d ≤ 31)
  ∨ (∃ c e, ds = [c, e] ∧ c.toNat = 32 ∧ 49 ≤ e.toNat ∧ e.toNat ≤ 57
      ∧ e.toNat - 48 = d)
  ∨ (∃ c e, ds = [c, e] ∧ (c.toNat = 49 ∨ c.toNat = 50) ∧ IsDigitU e
      ∧ 10 * (c.toNat - 48) + digVal e = d)

/-- The lenient date shape the code accepts: a four-digit year of value at
least 1 whose digits may come from any decimal-digit script, a dash, a
one-or-two-digit ASCII month, a dash, and a day of one of the shapes of
`DayShape`, with the month in 1..12 and the day in 1..(length of that
month). -/
def PyValidDate (s : String) : Prop :=
  ∃ ys ms ds : List Char, ∃ y m d : Nat,
    s.toList = ys ++ '-' :: (ms ++ '-' :: ds) ∧
    ys.length = 4 ∧ (∀ c ∈ ys, IsDigitU c) ∧ natOfDigits ys = y ∧
    (ms.length = 1 ∨ ms.length = 2) ∧ (∀ c ∈ ms, IsDigitCh c) ∧ natOfDigits ms = m ∧
    DayShape ds d ∧
    1 ≤ y ∧ 1 ≤ m ∧ m ≤ 12 ∧ 1 ≤ d ∧ d ≤ monthLength y m

/-- ASCII digit test, used only by the strict spec-side pattern below. -/
def asciiDigit (c : Char) : Bool := 48 ≤ c.toNat && c.toNat ≤ 57

/-- The strict shape asserted by the spec sentence: exactly `YYYY-MM-DD`
with two-digit month and day.  Modelled from the words of the spec for the
refinement comparison of claim C1. -/
def strictYMD (s : String) : Bool :=
  match s.toList with
  | [y1, y2, y3, y4, h1, m1, m2, h2, d1, d2] =>
    asciiDigit y1 && asciiDigit y2 && asciiDigit y3 && asciiDigit y4 &&
    (h1 == '-') && (h2 == '-') &&
    asciiDigit m1 && asciiDigit m2 && asciiDigit d1 && asciiDigit d2 &&
    (let y := natOfDigits [y1, y2, y3, y4]
     let m := natOfDigits [m1, m2]
     let d := natOfDigits [d1, d2]
     1 ≤ y && 1 ≤ m && m ≤ 12 && 1 ≤ d && d ≤ monthLength y m)
  | _ => false

/-! ### The home handler (POST branch after WTForms validation) -/

/-- Result of the home handler POST branch: either flash a message and
redirect to the home route itself, or redirect to the price route with the
ticker and both dates as parameters. -/
inductive HomeResult where
  | formError (flash : String)
  | toPrice (ticker beginDate endDate : String)
deriving DecidableEq

/-- Flash message for a malformed date. -/
def dateFmtMsg : String := "錯誤的日期格式，請依照yyyy-mm-dd格式輸入日期"

/-- Flash message for a begin date not strictly before the end date. -/
def rangeMsg : String := "起始日期必須小於結束日期，請重新輸入"

/-- Flash message for a ticker without the `.TW`/`.TWO` marker. -/
def tickerMsg : String := "錯誤的股票代碼格式，上市股票須加.TW、上櫃股票須加.TWO"

/-- `datetime >= datetime` on the parsed triples: lexicographic on
(year, month, day). -/
def tripleGe : Nat × Nat × Nat → Nat × Nat × Nat → Bool
  | (y1, m1, d1), (y2, m2, d2) =>
    if y1 ≠ y2 then decide (y2 < y1)
    else if m1 ≠ m2 then decide (m2 < m1)
    else decide (d2 ≤ d1)

/-- Spec-side strict chronological order on two parsed dates. -/
def EarlierDate (a b : Nat × Nat × Nat) : Prop :=
  a.1 < b.1 ∨ (a.1 = b.1 ∧ (a.2.1 < b.2.1 ∨ (a.2.1 = b.2.1 ∧ a.2.2 < b.2.2)))

instance : DecidablePred fun p : (Nat × Nat × Nat) × (Nat × Nat × Nat) => EarlierDate p.1 p.2 :=
  fun _ => by unfold EarlierDate; infer_instance

/-- The body of the `form.validate_on_submit()` branch of `home` in
`main.py` (lines 71-92): check the ticker marker, the date formats, then
the chronological order, and redirect accordingly.  (WTForms `DataRequired`
re-renders the form on blank fields before this branch is reached; the
claims under study always supply non-blank fields.) -/
def home_submit (t b e : String) : HomeResult :=
  if is_valid_ticker_suffix t then
    if !(is_valid_date_format b) || !(is_valid_date_format e) then .formError dateFmtMsg
    else
      match parseDateYMD b, parseDateYMD e with
      | some pb, some pe => if tripleGe pb pe then .formError rangeMsg else .toPrice t b e
      | _, _ => .formError dateFmtMsg
  else .formError tickerMsg

/-! ### The record store -/

/-- A row of the table `search_records`: a surrogate integer identity and a
unique non-null ticker string. -/
structure SearchRecord where
  id : Nat
  ticker : String
deriving DecidableEq

/-- The surrogate id the store assigns to a fresh row (autoincrement). -/
def nextId (store : List SearchRecord) : Nat :=
  (store.foldl (fun acc r => max acc r.id) 0) + 1

/-- The store invariant: no two rows share a ticker value. -/
def TickersNodup (store : List SearchRecord) : Prop :=
  (store.map SearchRecord.ticker).Nodup

/-! ### Dates and the default ninety-day window -/

/-- A Python `datetime.date`. -/
structure PyDate where
  year : Nat
  month : Nat
  day : Nat
deriving DecidableEq

/-- CPython `_DAYS_BEFORE_MONTH` (index `m - 1`). -/
def daysBeforeMonthTable : List Nat :=
  [0, 31, 59, 90, 120, 151, 181, 212, 243, 273, 304, 334]

/-- CPython `_days_before_year`. -/
def daysBeforeYear (y : Nat) : Nat :=
  let x := y - 1
  x * 365 + x / 4 - x / 100 + x / 400

/-- CPython `_ymd2ord`: the proleptic Gregorian ordinal of a date. -/
def ymd2ord (d : PyDate) : Nat :=
  daysBeforeYear d.year +
    (daysBeforeMonthTable.getD (d.month - 1) 0 +
      (if 2 < d.month ∧ isLeapPy d.year then 1 else 0)) + d.day

/-- CPython `_ord2ymd`: the date of a proleptic Gregorian ordinal. -/
def ord2ymd (nn : Nat) : PyDate :=
  let n0 := nn - 1
  let n400 := n0 / 146097
  let r400 := n0 % 146097
  let n100 := r400 / 36524
  let r100 := r400 % 36524
  let n4 := r100 / 1461
  let r4 := r100 % 1461
  let n1 := r4 / 365
  let n := r4 % 365
  let year := n400 * 400 + 1 + n100 * 100 + n4 * 4 + n1
  if n1 = 4 ∨ n100 = 4 then ⟨year - 1, 12, 31⟩
  else
    let leap := n1 = 3 ∧ (n4 ≠ 24 ∨ n100 = 3)
    let month := (n + 50) / 32
    let preceding := daysBeforeMonthTable.getD (month - 1) 0 +
      (if 2 < month ∧ leap then 1 else 0)
    if n < preceding then
      let month1 := month - 1
      let preceding1 := preceding - (daysInMonthTable.getD (month1 - 1) 0 +
        (if month1 = 2 ∧ leap then 1 else 0))
      ⟨year, month1, n - preceding1 + 1⟩
    else ⟨year, month, n - preceding + 1⟩

/-- `date - timedelta(days)`. -/
def dateSubDays (d : PyDate) (days : Nat) : PyDate := ord2ymd (ymd2ord d - days)

/-- An ASCII digit character from its value. -/
def digitChar (n : Nat) : Char := Char.ofNat (48 + n)

/-- Two-digit zero-padded decimal rendering (month and day of `str(date)`). -/
def pad2 (n : Nat) : List Char := [digitChar (n / 10 % 10), digitChar (n % 10)]

/-- Four-digit zero-padded decimal rendering (year of `str(date)`). -/
def pad4 (n : Nat) : List Char :=
  [digitChar (n / 1000 % 10), digitChar (n / 100 % 10), digitChar (n / 10 % 10),
    digitChar (n % 10)]

/-- Python `str(date)`: the ISO rendering `YYYY-MM-DD`. -/
def dateStr (d : PyDate) : String :=
  ⟨pad4 d.year ++ '-' :: (pad2 d.month ++ '-' :: pad2 d.day)⟩

/-! ### The price-display handler -/

/-- A row of the fetched price table. -/
structure PriceRow where
  date : String
  openV : Rat
  highV : Rat
  lowV : Rat
  closeV : Rat
deriving DecidableEq

/-- `Series.rolling(window=w).mean()`: at each row index `i` the mean of the
last `w` values among the first `i + 1`, `NaN` (here `none`) while fewer than
`w` observations have been seen. -/
def rollingMean (w : Nat) (xs : List Rat) : List (Option Rat) :=
  (List.range xs.length).map fun i =>
    if w ≤ i + 1 then some (((xs.take (i + 1)).drop (i + 1 - w)).sum / (w : Rat))
    else none

/-- Lines 98-103 of `main.py`: the effective date range of the price lookup.
When either query parameter is missing, both are replaced by the window of
the ninety days ending today. -/
def effectiveRange (bq eq' : Option String) (today : PyDate) : String × String :=
  match bq, eq' with
  | some b, some e => (b, e)
  | _, _ => (dateStr (dateSubDays today 90), dateStr today)

/-- Flash message when the provider returns an empty price table. -/
def notFoundMsg : String := "查無此股票代碼，請確認後再輸入"

/-- Response of the price-display handler: flash-and-redirect-home, or the
rendered chart page (title, categorical x labels, the two moving-average
overlays). -/
inductive SPResult where
  | notFound (flash : String)
  | chart (title : String) (xs : List String) (ma5 ma20 : List (Option Rat))
deriving DecidableEq

/-- The `search_price` handler of `main.py` (lines 96-147).  `fetch` stands
for `yf.download` (ticker, begin, end).  Returns the response together with
the store after the request. -/
def search_price (store : List SearchRecord)
    (fetch : String → String → String → List PriceRow) (today : PyDate)
    (ticker : String) (bq eq' : Option String) : SPResult × List SearchRecord :=
  let be := effectiveRange bq eq' today
  let sp := fetch ticker be.1 be.2
  if sp.isEmpty then (.notFound notFoundMsg, store)
  else
    let store' :=
      if store.any (fun r => r.ticker == ticker) then store
      else store ++ [⟨nextId store, ticker⟩]
    let closes := sp.map PriceRow.closeV
    (.chart ticker (sp.map PriceRow.date) (rollingMean 5 closes) (rollingMean 20 closes),
      store')

/-- The `delete_record` handler of `main.py` (lines 150-156): look up the
first row matching the `ticker` query parameter, delete it when found, and
redirect to the home route unconditionally.  A missing parameter gives
`filter_by(ticker=None)`, which matches no row of the non-null column. -/
def delete_record (store : List SearchRecord) (q : Option String) :
    List SearchRecord × String :=
  match q with
  | none => (store, "home")
  | some t =>
    match store.find? (fun r => r.ticker == t) with
    | some _ => (store.eraseP (fun r => r.ticker == t), "home")
    | none => (store, "home")

/-! ### The webhook handler -/

/-- Outcome of the `callback` handler: an unhandled exception propagating to
a generic server error, `abort(400)`, or the 200 `OK` response. -/
inductive CallbackResult where
  | serverError
  | badRequest
  | ok
deriving DecidableEq

/-- The `callback` handler of `main.py` (lines 161-177) together with the
echo dispatch (lines 180-189).  `request.headers['X-Line-Signature']` raises
a plain `KeyError` when the header is absent (werkzeug `EnvironHeaders` reads
the WSGI environ dict), which no handler catches.  `verify body sig` stands
for `handler.handle` not raising `InvalidSignatureError`; `textEvents body`
stands for the text-message events parsed from the body, each of which is
echoed back.  The second component lists the reply texts sent. -/
def callback (sigHeader : Option String) (body : String)
    (verify : String → String → Bool) (textEvents : String → List String) :
    CallbackResult × List String :=
  match sigHeader with
  | none => (.serverError, [])
  | some sig =>
    if verify body sig then (.ok, textEvents body)
    else (.badRequest, [])

/-! ### Substring lemmas (ticker check) -/

theorem startsWithL_iff (n : List Char) : ∀ l : List Char,
    startsWithL n l = true ↔ ∃ post, l = n ++ post := by
  induction n with
  | nil => intro l; simp [startsWithL]
  | cons a as ih =>
    intro l
    cases l with
    | nil =>
      simp [startsWithL]
    | cons b bs =>
      simp only [startsWithL, Bool.and_eq_true, beq_iff_eq, ih]
      constructor
      · rintro ⟨rfl, post, rfl⟩
        exact ⟨post, rfl⟩
      · rintro ⟨post, hpost⟩
        rw [List.cons_append] at hpost
        obtain ⟨rfl, rfl⟩ := List.cons.inj hpost
        exact ⟨rfl, post, rfl⟩

theorem containsSub_iff (n : List Char) : ∀ l : List Char,
    containsSub n l = true ↔ ∃ p q, l = p ++ n ++ q := by
  intro l
  induction l with
  | nil =>
    simp only [containsSub, startsWithL_iff]
    constructor
    · rintro ⟨post, hpost⟩
      exact ⟨[], post, by simpa using hpost⟩
    · rintro ⟨p, q, hpq⟩
      have hp : p = [] ∧ n = [] ∧ q = [] := by simpa using hpq.symm
      exact ⟨[], by simp [hp.2.1]⟩
  | cons c cs ih =>
    simp only [containsSub, Bool.or_eq_true, startsWithL_iff, ih]
    constructor
    · rintro (⟨post, hpost⟩ | ⟨p, q, rfl⟩)
      · exact ⟨[], post, by simpa using hpost⟩
      · exact ⟨c :: p, q, by simp⟩
    · rintro ⟨p, q, hpq⟩
      cases p with
      | nil => exact Or.inl ⟨q, by simpa using hpq⟩
      | cons x xs =>
        right
        rw [List.cons_append, List.cons_append] at hpq
        obtain ⟨rfl, rfl⟩ := List.cons.inj hpq
        exact ⟨xs, q, by simp⟩

/-- C5: the ticker-format check accepts `t` iff `t` contains `.TW` or `.TWO`
as a case-sensitive substring anywhere (not anchored to the end); `2330.TW`
is accepted, `2330` is rejected, `FOO.TWOBAR` is accepted. -/
theorem ticker_suffix_substring_characterisation :
    (∀ t : String, is_valid_ticker_suffix t = true ↔
      ((∃ p q, t.toList = p ++ ".TW".toList ++ q) ∨
        (∃ p q, t.toList = p ++ ".TWO".toList ++ q)))
    ∧ is_valid_ticker_suffix "2330.TW" = true
    ∧ is_valid_ticker_suffix "2330" = false
    ∧ is_valid_ticker_suffix "FOO.TWOBAR" = true := by
  refine ⟨fun t => ?_, by decide, by decide, by decide⟩
  simp [is_valid_ticker_suffix, Bool.or_eq_true, containsSub_iff]

/-! ### Webhook theorems -/

/-- C8: a POST to the webhook route whose body fails signature verification
is answered with HTTP 400 and the body is not processed further: no reply is
sent. -/
theorem callback_invalid_signature (sig body : String)
    (verify : String → String → Bool) (textEvents : String → List String)
    (h : verify body sig = false) :
    callback (some sig) body verify textEvents = (.badRequest, []) := by
  simp [callback, h]

theorem callback_invalid_signature_witness :
    callback (some "sig") "body" (fun _ _ => false) (fun _ => ["hello"])
      = (.badRequest, []) :=
  callback_invalid_signature "sig" "body" _ _ rfl

/-- C9: a POST to the webhook route without the `X-Line-Signature` header
raises an unhandled lookup error (a generic server error), not the HTTP 400
of signature-verification failure; the 400 branch is reachable only when the
header is present. -/
theorem callback_missing_header (body : String)
    (verify : String → String → Bool) (textEvents : String → List String) :
    callback none body verify textEvents = (.serverError, [])
    ∧ CallbackResult.serverError ≠ CallbackResult.badRequest
    ∧ (∀ sh, (callback sh body verify textEvents).1 = .badRequest →
        ∃ s, sh = some s) := by
  refine ⟨rfl, by decide, ?_⟩
  intro sh h
  cases sh with
  | none => simp [callback] at h
  | some s => exact ⟨s, rfl⟩

theorem callback_missing_header_witness :
    callback none "body" (fun _ _ => true) (fun _ => ["x"]) = (.serverError, []) :=
  (callback_missing_header "body" (fun _ _ => true) (fun _ => ["x"])).1

/-! ### Record-store lemmas -/

theorem any_ticker_iff (store : List SearchRecord) (t : String) :
    store.any (fun r => r.ticker == t) = true ↔ t ∈ store.map SearchRecord.ticker := by
  rw [List.any_eq_true]
  constructor
  · rintro ⟨r, hr, hrt⟩
    exact List.mem_map.mpr ⟨r, hr, beq_iff_eq.mp hrt⟩
  · intro hmem
    obtain ⟨r, hr, hrt⟩ := List.mem_map.mp hmem
    exact ⟨r, hr, beq_iff_eq.mpr hrt⟩

theorem filter_ticker_length_one (store : List SearchRecord) (t : String)
    (hnd : TickersNodup store) (hmem : t ∈ store.map SearchRecord.ticker) :
    (store.filter (fun r => r.ticker == t)).length = 1 := by
  have h1 : (store.filter (fun r => r.ticker == t)).length
      = List.countP (fun r => r.ticker == t) store :=
    (List.countP_eq_length_filter _ _).symm
  have h2 : List.countP (fun r => r.ticker == t) store
      = (store.map SearchRecord.ticker).count t := by
    rw [List.count_eq_countP, List.countP_map]
    rfl
  rw [h1, h2]
  exact List.count_eq_one_of_mem hnd hmem

theorem search_price_store_of_nonempty (store : List SearchRecord)
    (fetch : String → String → String → List PriceRow) (today : PyDate)
    (t : String) (bq eq' : Option String)
    (hne : fetch t (effectiveRange bq eq' today).1 (effectiveRange bq eq' today).2 ≠ []) :
    (search_price store fetch today t bq eq').2
      = if store.any (fun r => r.ticker == t) then store
        else store ++ [⟨nextId store, t⟩] := by
  have hE : (fetch t (effectiveRange bq eq' today).1
      (effectiveRange bq eq' today).2).isEmpty = false :=
    List.isEmpty_eq_false.mpr hne
  simp only [search_price, hE, Bool.false_eq_true, if_false]

/-- C2: when the provider returns an empty price series, the price-display
handler flashes the not-found message and redirects to the home route, and
the record store is left unchanged. -/
theorem search_price_empty_redirects (store : List SearchRecord)
    (fetch : String → String → String → List PriceRow) (today : PyDate)
    (ticker : String) (bq eq' : Option String)
    (h : fetch ticker (effectiveRange bq eq' today).1 (effectiveRange bq eq' today).2 = []) :
    search_price store fetch today ticker bq eq' = (.notFound notFoundMsg, store) := by
  have hE : (fetch ticker (effectiveRange bq eq' today).1
      (effectiveRange bq eq' today).2).isEmpty = true := by rw [h]; rfl
  simp only [search_price, hE, if_pos]

theorem search_price_empty_redirects_witness :
    search_price [] (fun _ _ _ => []) ⟨2026, 1, 15⟩ "9999.TW" none none
      = (.notFound notFoundMsg, []) :=
  search_price_empty_redirects [] (fun _ _ _ => []) ⟨2026, 1, 15⟩ "9999.TW" none none rfl

/-- C3: the store never holds two records of the same ticker, and running
the insert-if-absent step of the price-display handler twice for the same
ticker (with non-empty provider data) leaves exactly one record for it —
the second run is a no-op. -/
theorem search_price_insert_idempotent (store : List SearchRecord)
    (fetch : String → String → String → List PriceRow) (today : PyDate)
    (t : String) (bq eq' : Option String)
    (hnd : TickersNodup store)
    (hne : fetch t (effectiveRange bq eq' today).1 (effectiveRange bq eq' today).2 ≠ []) :
    TickersNodup (search_price store fetch today t bq eq').2
    ∧ ((search_price store fetch today t bq eq').2.filter
        (fun r => r.ticker == t)).length = 1
    ∧ (search_price (search_price store fetch today t bq eq').2 fetch today t bq eq').2
        = (search_price store fetch today t bq eq').2 := by
  have h1 := search_price_store_of_nonempty store fetch today t bq eq' hne
  by_cases hmem : t ∈ store.map SearchRecord.ticker
  · have hany : store.any (fun r => r.ticker == t) = true :=
      (any_ticker_iff store t).mpr hmem
    have hs1 : (search_price store fetch today t bq eq').2 = store := by
      rw [h1, hany]; simp
    rw [hs1]
    exact ⟨hnd, filter_ticker_length_one store t hnd hmem, hs1⟩
  · have hany : store.any (fun r => r.ticker == t) = false :=
      Bool.eq_false_iff.mpr (fun hc => hmem ((any_ticker_iff store t).mp hc))
    have hs1 : (search_price store fetch today t bq eq').2
        = store ++ [⟨nextId store, t⟩] := by
      rw [h1, hany]; simp
    rw [hs1]
    refine ⟨?_, ?_, ?_⟩
    · simp only [TickersNodup, List.map_append, List.map_cons, List.map_nil]
      rw [List.nodup_append]
      exact ⟨hnd, List.nodup_singleton t, by simpa using hmem⟩
    · rw [List.filter_append]
      have hfn : store.filter (fun r => r.ticker == t) = [] := by
        rw [List.filter_eq_nil_iff]
        intro r hr hrt
        exact hmem (List.mem_map.mpr ⟨r, hr, beq_iff_eq.mp hrt⟩)
      simp [hfn]
    · have hany2 : (store ++ [⟨nextId store, t⟩] : List SearchRecord).any
          (fun r => r.ticker == t) = true :=
        List.any_eq_true.mpr ⟨⟨nextId store, t⟩, by simp, by simp⟩
      rw [search_price_store_of_nonempty _ fetch today t bq eq' hne, hany2]
      simp

theorem search_price_insert_idempotent_witness :
    TickersNodup (search_price [] (fun _ _ _ => [⟨"2023-01-03", 1, 2, 1, 2⟩])
        ⟨2026, 1, 15⟩ "2330.TW" none none).2
    ∧ ((search_price [] (fun _ _ _ => [⟨"2023-01-03", 1, 2, 1, 2⟩])
        ⟨2026, 1, 15⟩ "2330.TW" none none).2.filter
          (fun r => r.ticker == "2330.TW")).length = 1 := by
  have h := search_price_insert_idempotent [] (fun _ _ _ => [⟨"2023-01-03", 1, 2, 1, 2⟩])
    ⟨2026, 1, 15⟩ "2330.TW" none none (by simp [TickersNodup]) (by simp)
  exact ⟨h.1, h.2.1⟩

/-! ### Delete-handler lemmas -/

theorem eraseP_ticker_eq_filter (store : List SearchRecord) (t : String)
    (hnd : TickersNodup store) :
    store.eraseP (fun r => r.ticker == t) = store.filter (fun r => !(r.ticker == t)) := by
  induction store with
  | nil => rfl
  | cons r rest ih =>
    have hnd0 : r.ticker ∉ rest.map SearchRecord.ticker ∧ TickersNodup rest := by
      simpa [TickersNodup, List.nodup_cons] using hnd
    cases hrt : (r.ticker == t) with
    | false =>
      simp [List.eraseP_cons, List.filter_cons, hrt, ih hnd0.2]
    | true =>
      have hrt' : r.ticker = t := beq_iff_eq.mp hrt
      have hrest : rest.filter (fun r => !(r.ticker == t)) = rest := by
        rw [List.filter_eq_self]
        intro a ha
        simp only [Bool.not_eq_true', beq_eq_false_iff_ne, ne_eq]
        intro hat
        exact hnd0.1 (by rw [hrt', ← hat]; exact List.mem_map_of_mem _ ha)
      rw [List.eraseP_cons, List.filter_cons, hrt]
      simp [hrest]

/-- C7: the delete handler removes the record matching the `ticker` query
parameter when one exists, is a no-op when none matches (also when the
parameter is missing), and redirects to the home route in every case. -/
theorem delete_record_spec (store : List SearchRecord) (q : Option String)
    (hnd : TickersNodup store) :
    (delete_record store q).2 = "home"
    ∧ (q = none → (delete_record store q).1 = store)
    ∧ (∀ t, q = some t →
        (delete_record store q).1 = store.filter (fun r => !(r.ticker == t))) := by
  refine ⟨?_, ?_, ?_⟩
  · cases q with
    | none => rfl
    | some t =>
      simp only [delete_record]
      cases store.find? (fun r => r.ticker == t) <;> rfl
  · rintro rfl; rfl
  · rintro t rfl
    simp only [delete_record]
    cases hf : store.find? (fun r => r.ticker == t) with
    | none =>
      have : ∀ r ∈ store, ¬(r.ticker == t) = true := by
        intro r hr
        exact fun hc => by
          have := List.find?_eq_none.mp hf r hr
          exact this hc
      rw [List.filter_eq_self.mpr (by intro a ha; simpa using this a ha)]
    | some r =>
      exact eraseP_ticker_eq_filter store t hnd

theorem delete_record_spec_witness :
    (delete_record [⟨1, "2330.TW"⟩] (some "2330.TW")).1 = []
    ∧ (delete_record [⟨1, "2330.TW"⟩] (some "2330.TW")).2 = "home"
    ∧ (delete_record [⟨1, "2330.TW"⟩] (some "0050.TW")).1 = [⟨1, "2330.TW"⟩] := by
  have h1 := delete_record_spec [⟨1, "2330.TW"⟩] (some "2330.TW")
    (by unfold TickersNodup; decide)
  have h2 := delete_record_spec [⟨1, "2330.TW"⟩] (some "0050.TW")
    (by unfold TickersNodup; decide)
  refine ⟨?_, h1.1, ?_⟩
  · rw [h1.2.2 "2330.TW" rfl]; decide
  · rw [h2.2.2 "0050.TW" rfl]; decide

/-! ### Default date window -/

/-- C10: when at least one of the two date query parameters is missing (in
particular when exactly one is supplied), the supplied value is ignored and
both dates are replaced by the window of the ninety days ending today,
exactly as when neither parameter is supplied. -/
theorem search_price_default_window (store : List SearchRecord)
    (fetch : String → String → String → List PriceRow) (today : PyDate)
    (ticker : String) (bq eq' : Option String)
    (h : bq = none ∨ eq' = none) :
    effectiveRange bq eq' today = (dateStr (dateSubDays today 90), dateStr today)
    ∧ search_price store fetch today ticker bq eq'
        = search_price store fetch today ticker none none := by
  have heff : effectiveRange bq eq' today
      = (dateStr (dateSubDays today 90), dateStr today) := by
    rcases h with rfl | rfl
    · cases eq' <;> rfl
    · cases bq <;> rfl
  refine ⟨heff, ?_⟩
  unfold search_price
  rw [heff, show effectiveRange none none today
    = (dateStr (dateSubDays today 90), dateStr today) from rfl]

theorem search_price_default_window_witness :
    effectiveRange (some "2024-01-01") none ⟨2026, 1, 15⟩
      = ("2025-10-17", "2026-01-15")
    ∧ search_price [] (fun _ _ _ => []) ⟨2026, 1, 15⟩ "2330.TW" (some "2024-01-01") none
      = search_price [] (fun _ _ _ => []) ⟨2026, 1, 15⟩ "2330.TW" none none := by
  have h := search_price_default_window [] (fun _ _ _ => []) ⟨2026, 1, 15⟩ "2330.TW"
    (some "2024-01-01") none (Or.inr rfl)
  refine ⟨?_, h.2⟩
  rw [h.1]
  decide

/-! ### Moving averages -/

theorem rollingMean_getD (w : Nat) (xs : List Rat) (i : Nat) (hi : i < xs.length) :
    (rollingMean w xs).getD i none
      = if w ≤ i + 1 then some (((xs.drop (i + 1 - w)).take w).sum / (w : Rat))
        else none := by
  have hr : (List.range xs.length)[i]? = some i := List.getElem?_range hi
  have hbase : (rollingMean w xs).getD i none
      = if w ≤ i + 1 then some (((xs.take (i + 1)).drop (i + 1 - w)).sum / (w : Rat))
        else none := by
    simp only [rollingMean, List.getD_eq_getElem?_getD, List.getElem?_map, hr,
      Option.map_some', Option.getD_some]
  rw [hbase]
  by_cases hw : w ≤ i + 1
  · rw [if_pos hw, if_pos hw, List.drop_take]
    have harg : i + 1 - (i + 1 - w) = w := by omega
    rw [harg]
  · rw [if_neg hw, if_neg hw]

/-- C4: the derived MA5 column equals the unweighted mean of Close over the
trailing five rows from row 4 on and is absent for rows 0..3; MA20 likewise
with window twenty from row 19 on; both columns have one cell per price row.
(The concrete example of the claim is the witness theorem.) -/
theorem movingAverage_columns (xs : List Rat) (i : Nat) (hi : i < xs.length) :
    ((rollingMean 5 xs).getD i none
      = if 4 ≤ i then some (((xs.drop (i - 4)).take 5).sum / 5) else none)
    ∧ ((rollingMean 20 xs).getD i none
      = if 19 ≤ i then some (((xs.drop (i - 19)).take 20).sum / 20) else none)
    ∧ (rollingMean 5 xs).length = xs.length
    ∧ (rollingMean 20 xs).length = xs.length := by
  refine ⟨?_, ?_, by simp [rollingMean], by simp [rollingMean]⟩
  · rw [rollingMean_getD 5 xs i hi]
    by_cases h4 : 4 ≤ i
    · rw [if_pos (show 5 ≤ i + 1 by omega), if_pos h4,
        show i + 1 - 5 = i - 4 by omega]
      norm_num
    · rw [if_neg (show ¬ 5 ≤ i + 1 by omega), if_neg h4]
  · rw [rollingMean_getD 20 xs i hi]
    by_cases h19 : 19 ≤ i
    · rw [if_pos (show 20 ≤ i + 1 by omega), if_pos h19,
        show i + 1 - 20 = i - 19 by omega]
      norm_num
    · rw [if_neg (show ¬ 20 ≤ i + 1 by omega), if_neg h19]

theorem movingAverage_columns_witness :
    (rollingMean 5 [(10 : Rat), 20, 30, 40, 50]).getD 4 none = some 30
    ∧ (rollingMean 5 [(10 : Rat), 20, 30, 40, 50]).getD 3 none = none := by
  have h4 := (movingAverage_columns [(10 : Rat), 20, 30, 40, 50] 4 (by decide)).1
  have h3 := (movingAverage_columns [(10 : Rat), 20, 30, 40, 50] 3 (by decide)).1
  constructor
  · rw [h4]; norm_num
  · rw [h3]; norm_num

/-! ### Range check of the home handler -/

instance EarlierDate.decidable (a b : Nat × Nat × Nat) : Decidable (EarlierDate a b) := by
  unfold EarlierDate
  infer_instance

theorem tripleGe_eq_false_iff (a b : Nat × Nat × Nat) :
    tripleGe a b = false ↔ EarlierDate a b := by
  obtain ⟨y1, m1, d1⟩ := a
  obtain ⟨y2, m2, d2⟩ := b
  simp only [tripleGe, EarlierDate]
  split_ifs with h1 h2 <;> simp <;> omega

/-- C6: for strings `b`, `e` that both pass the date-format check (and a
ticker passing the format check), the range check of the home handler passes
iff the parsed begin date is strictly earlier than the parsed end date;
otherwise the handler flashes the range message and redirects to itself. -/
theorem home_range_check (t b e : String)
    (ht : is_valid_ticker_suffix t = true)
    (hb : is_valid_date_format b = true)
    (he : is_valid_date_format e = true) :
    (home_submit t b e = HomeResult.toPrice t b e ↔
      (∃ pb pe, parseDateYMD b = some pb ∧ parseDateYMD e = some pe ∧ EarlierDate pb pe))
    ∧ (∀ pb pe, parseDateYMD b = some pb → parseDateYMD e = some pe →
        ¬ EarlierDate pb pe → home_submit t b e = HomeResult.formError rangeMsg) := by
  have hb' : (parseDateYMD b).isSome = true := hb
  have he' : (parseDateYMD e).isSome = true := he
  obtain ⟨pb, hpb⟩ := Option.isSome_iff_exists.mp hb'
  obtain ⟨pe, hpe⟩ := Option.isSome_iff_exists.mp he'
  have hhs : home_submit t b e
      = if tripleGe pb pe then .formError rangeMsg else .toPrice t b e := by
    simp [home_submit, ht, hb, he, hpb, hpe]
  constructor
  · rw [hhs]
    constructor
    · intro h
      cases hge : tripleGe pb pe with
      | true => rw [if_pos hge] at h; simp at h
      | false =>
        exact ⟨pb, pe, hpb, hpe, (tripleGe_eq_false_iff pb pe).mp hge⟩
    · rintro ⟨pb', pe', hpb', hpe', hlt⟩
      rw [hpb] at hpb'
      rw [hpe] at hpe'
      obtain rfl : pb = pb' := Option.some.inj hpb'
      obtain rfl : pe = pe' := Option.some.inj hpe'
      rw [(tripleGe_eq_false_iff pb pe).mpr hlt]
      simp
  · intro pb' pe' hpb' hpe' hnot
    rw [hpb] at hpb'
    rw [hpe] at hpe'
    obtain rfl : pb = pb' := Option.some.inj hpb'
    obtain rfl : pe = pe' := Option.some.inj hpe'
    have hge : tripleGe pb pe = true := by
      cases hg : tripleGe pb pe with
      | false => exact absurd ((tripleGe_eq_false_iff pb pe).mp hg) hnot
      | true => rfl
    rw [hhs, hge]
    simp

theorem home_range_check_witness :
    home_submit "2330.TW" "2023-01-01" "2023-03-01"
      = HomeResult.toPrice "2330.TW" "2023-01-01" "2023-03-01"
    ∧ home_submit "2330.TW" "2023-01-01" "2023-01-01" = HomeResult.formError rangeMsg := by
  have h1 := home_range_check "2330.TW" "2023-01-01" "2023-03-01"
    (by decide) (by decide) (by decide)
  have h2 := home_range_check "2330.TW" "2023-01-01" "2023-01-01"
    (by decide) (by decide) (by decide)
  refine ⟨h1.1.mpr ⟨(2023, 1, 1), (2023, 3, 1), by decide, by decide, by decide⟩, ?_⟩
  exact h2.2 (2023, 1, 1) (2023, 1, 1) (by decide) (by decide) (by decide)

/-! ### Date-validator lemmas -/

theorem isDigitCh_iff (c : Char) : IsDigitCh c ↔ 48 ≤ c.toNat ∧ c.toNat ≤ 57 :=
  Iff.rfl

set_option maxRecDepth 8192 in
theorem ndZeros_disjoint :
    ∀ z ∈ ndZeros, ∀ z' ∈ ndZeros, z ≠ z' → z + 9 < z' ∨ z' + 9 < z := by
  decide

theorem digVal_of_mem (c : Char) (z : Nat) (hz : z ∈ ndZeros)
    (h1 : z ≤ c.toNat) (h2 : c.toNat ≤ z + 9) : digVal c = c.toNat - z := by
  cases hf : ndZeros.find? (fun z => z ≤ c.toNat && c.toNat ≤ z + 9) with
  | none =>
    exfalso
    have hzf := List.find?_eq_none.mp hf z hz
    simp only [Bool.and_eq_true, decide_eq_true_eq] at hzf
    exact hzf ⟨h1, h2⟩
  | some z' =>
    have hp := List.find?_some hf
    have hmem := List.mem_of_find?_eq_some hf
    simp only [Bool.and_eq_true, decide_eq_true_eq] at hp
    have hzz : z = z' := by
      by_contra hne
      rcases ndZeros_disjoint z hz z' hmem hne with hlt | hlt <;> omega
    unfold digVal
    rw [hf, hzz]

theorem digVal_ascii (c : Char) (h1 : 48 ≤ c.toNat) (h2 : c.toNat ≤ 57) :
    digVal c = c.toNat - 48 :=
  digVal_of_mem c 48 (by decide) h1 (by omega)

theorem isDigitUni_iff (c : Char) : isDigitUni c = true ↔ IsDigitU c := by
  simp [isDigitUni, IsDigitU, List.any_eq_true]

theorem isDigitUni_ascii (c : Char) (h1 : 48 ≤ c.toNat) (h2 : c.toNat ≤ 57) :
    isDigitUni c = true :=
  (isDigitUni_iff c).mpr ⟨48, by decide, h1, by omega⟩

theorem digVal_le_9 (c : Char) (h : IsDigitU c) : digVal c ≤ 9 := by
  obtain ⟨z, hz, hz1, hz2⟩ := h
  rw [digVal_of_mem c z hz hz1 hz2]
  omega

theorem natOfDigits_one (c : Char) (h1 : 48 ≤ c.toNat) (h2 : c.toNat ≤ 57) :
    natOfDigits [c] = c.toNat - 48 := by
  simp [natOfDigits, digVal_ascii c h1 h2]

theorem natOfDigits_two (c d : Char) (h1 : 48 ≤ c.toNat) (h2 : c.toNat ≤ 57)
    (h3 : 48 ≤ d.toNat) (h4 : d.toNat ≤ 57) :
    natOfDigits [c, d] = 10 * (c.toNat - 48) + (d.toNat - 48) := by
  simp [natOfDigits, digVal_ascii c h1 h2, digVal_ascii d h3 h4]

theorem month_token_iff (t : List Char) (m : Nat) :
    monthOfToken t = some m ↔
      ((t.length = 1 ∨ t.length = 2) ∧ (∀ c ∈ t, IsDigitCh c) ∧ natOfDigits t = m
        ∧ 1 ≤ m ∧ m ≤ 12) := by
  rcases t with _ | ⟨c, _ | ⟨d, _ | ⟨e, r⟩⟩⟩
  · simp [monthOfToken]
  · constructor
    · intro h
      simp only [monthOfToken] at h
      split_ifs at h with hc
      · obtain h' := Option.some.inj h
        refine ⟨Or.inl rfl, ?_, ?_, by omega, by omega⟩
        · intro x hx
          obtain rfl := List.mem_singleton.mp hx
          exact (isDigitCh_iff x).mpr ⟨by omega, by omega⟩
        · rw [natOfDigits_one c (by omega) (by omega)]; omega
    · rintro ⟨-, hdig, hm, h1, h12⟩
      obtain ⟨ha, hb⟩ := (isDigitCh_iff c).mp (hdig c (List.mem_singleton.mpr rfl))
      rw [natOfDigits_one c ha hb] at hm
      simp only [monthOfToken]
      rw [if_pos ⟨by omega, hb⟩, Option.some.injEq]
      omega
  · constructor
    · intro h
      simp only [monthOfToken] at h
      split_ifs at h with h1 h2
      · obtain h' := Option.some.inj h
        refine ⟨Or.inr rfl, ?_,
          by rw [natOfDigits_two c d (by omega) (by omega) (by omega) (by omega)]; omega,
          by omega, by omega⟩
        intro x hx
        rcases (by simpa using hx : x = c ∨ x = d) with rfl | rfl
        · exact (isDigitCh_iff x).mpr ⟨by omega, by omega⟩
        · exact (isDigitCh_iff x).mpr ⟨by omega, by omega⟩
      · obtain h' := Option.some.inj h
        refine ⟨Or.inr rfl, ?_,
          by rw [natOfDigits_two c d (by omega) (by omega) (by omega) (by omega)]; omega,
          by omega, by omega⟩
        intro x hx
        rcases (by simpa using hx : x = c ∨ x = d) with rfl | rfl
        · exact (isDigitCh_iff x).mpr ⟨by omega, by omega⟩
        · exact (isDigitCh_iff x).mpr ⟨by omega, by omega⟩
    · rintro ⟨-, hdig, hm, hm1, hm12⟩
      obtain ⟨hc1, hc2⟩ := (isDigitCh_iff c).mp (hdig c (by simp))
      obtain ⟨hd1, hd2⟩ := (isDigitCh_iff d).mp (hdig d (by simp))
      rw [natOfDigits_two c d hc1 hc2 hd1 hd2] at hm
      simp only [monthOfToken]
      by_cases hceq : c.toNat = 49
      · rw [if_pos ⟨hceq, by omega, by omega⟩, Option.some.injEq]
        omega
      · have hceq' : c.toNat = 48 := by omega
        rw [if_neg (by omega), if_pos ⟨hceq', by omega, hd2⟩, Option.some.injEq]
        omega
  · constructor
    · intro h
      exact absurd h (by simp [monthOfToken])
    · rintro ⟨hlen, -⟩
      rcases hlen with hlen | hlen <;> simp [List.length_cons] at hlen

theorem day_token_iff (t : List Char) (d : Nat) :
    dayOfToken t = some d ↔ DayShape t d := by
  rcases t with _ | ⟨c, _ | ⟨e, _ | ⟨f, r⟩⟩⟩
  · constructor
    · intro h
      simp [dayOfToken] at h
    · rintro (⟨hlen, -⟩ | ⟨c, e, heq, -⟩ | ⟨c, e, heq, -⟩)
      · rcases hlen with hlen | hlen <;> simp at hlen
      · simp at heq
      · simp at heq
  · constructor
    · intro h
      simp only [dayOfToken] at h
      split_ifs at h with hc
      obtain h' := Option.some.inj h
      left
      refine ⟨Or.inl rfl, ?_, ?_, by omega, by omega⟩
      · intro x hx
        obtain rfl := List.mem_singleton.mp hx
        exact (isDigitCh_iff x).mpr ⟨by omega, by omega⟩
      · rw [natOfDigits_one c (by omega) (by omega)]; omega
    · rintro (⟨-, hdig, hd, h1, h31⟩ | ⟨c', e, heq, -⟩ | ⟨c', e, heq, -⟩)
      · obtain ⟨ha, hb⟩ := (isDigitCh_iff c).mp (hdig c (List.mem_singleton.mpr rfl))
        rw [natOfDigits_one c ha hb] at hd
        simp only [dayOfToken]
        rw [if_pos ⟨by omega, hb⟩, Option.some.injEq]
        omega
      · simp at heq
      · simp at heq
  · constructor
    · intro h
      simp only [dayOfToken] at h
      split_ifs at h with h1 h2 h3 h4
      · obtain h' := Option.some.inj h
        left
        refine ⟨Or.inr rfl, ?_, ?_, by omega, by omega⟩
        · intro x hx
          rcases (by simpa using hx : x = c ∨ x = e) with rfl | rfl
          · exact (isDigitCh_iff x).mpr ⟨by omega, by omega⟩
          · exact (isDigitCh_iff x).mpr ⟨by omega, by omega⟩
        · rw [natOfDigits_two c e (by omega) (by omega) (by omega) (by omega)]
          omega
      · right; right
        exact ⟨c, e, rfl, h2.1, (isDigitUni_iff e).mp h2.2, Option.some.inj h⟩
      · obtain h' := Option.some.inj h
        left
        refine ⟨Or.inr rfl, ?_, ?_, by omega, by omega⟩
        · intro x hx
          rcases (by simpa using hx : x = c ∨ x = e) with rfl | rfl
          · exact (isDigitCh_iff x).mpr ⟨by omega, by omega⟩
          · exact (isDigitCh_iff x).mpr ⟨by omega, by omega⟩
        · rw [natOfDigits_two c e (by omega) (by omega) (by omega) (by omega)]
          omega
      · right; left
        exact ⟨c, e, rfl, h4.1, h4.2.1, h4.2.2, Option.some.inj h⟩
    · rintro (⟨-, hdig, hd, hd1, hd31⟩ | hsp | hun)
      · obtain ⟨hc1, hc2⟩ := (isDigitCh_iff c).mp (hdig c (by simp))
        obtain ⟨he1, he2⟩ := (isDigitCh_iff e).mp (hdig e (by simp))
        rw [natOfDigits_two c e hc1 hc2 he1 he2] at hd
        simp only [dayOfToken]
        by_cases h51 : c.toNat = 51
        · rw [if_pos ⟨h51, by omega⟩, Option.some.injEq]
          omega
        · by_cases h1250 : c.toNat = 49 ∨ c.toNat = 50
          · rw [if_neg (by omega), if_pos ⟨h1250, isDigitUni_ascii e he1 he2⟩,
              Option.some.injEq, digVal_ascii e he1 he2]
            omega
          · have h48 : c.toNat = 48 := by omega
            have hn2 : ¬((c.toNat = 49 ∨ c.toNat = 50) ∧ isDigitUni e = true) := by
              rintro ⟨hcon, -⟩
              omega
            rw [if_neg (by omega), if_neg hn2, if_pos ⟨h48, by omega, he2⟩,
              Option.some.injEq]
            omega
      · obtain ⟨c', e', heq, hc32, he1, he2, hval⟩ := hsp
        obtain ⟨rfl, rfl⟩ : c = c' ∧ e = e' := by simpa using heq
        have hn1 : ¬(c.toNat = 51 ∧ (e.toNat = 48 ∨ e.toNat = 49)) := by
          rintro ⟨hcon, -⟩
          omega
        have hn2 : ¬((c.toNat = 49 ∨ c.toNat = 50) ∧ isDigitUni e = true) := by
          rintro ⟨hcon, -⟩
          omega
        have hn3 : ¬(c.toNat = 48 ∧ 49 ≤ e.toNat ∧ e.toNat ≤ 57) := by
          rintro ⟨hcon, -⟩
          omega
        simp only [dayOfToken]
        rw [if_neg hn1, if_neg hn2, if_neg hn3, if_pos ⟨hc32, he1, he2⟩,
          Option.some.injEq]
        exact hval
      · obtain ⟨c', e', heq, hc12, hu, hval⟩ := hun
        obtain ⟨rfl, rfl⟩ : c = c' ∧ e = e' := by simpa using heq
        have hn1 : ¬(c.toNat = 51 ∧ (e.toNat = 48 ∨ e.toNat = 49)) := by
          rintro ⟨hcon, -⟩
          omega
        simp only [dayOfToken]
        rw [if_neg hn1, if_pos ⟨hc12, (isDigitUni_iff e).mpr hu⟩,
          Option.some.injEq]
        exact hval
  · constructor
    · intro h
      exact absurd h (by simp [dayOfToken])
    · rintro (⟨hlen, -⟩ | ⟨c', e', heq, -⟩ | ⟨c', e', heq, -⟩)
      · rcases hlen with hlen | hlen <;> simp [List.length_cons] at hlen
      · simp at heq
      · simp at heq

theorem dayShape_bounds (t : List Char) (d : Nat) (h : DayShape t d) :
    1 ≤ d ∧ d ≤ 31 := by
  rcases h with ⟨-, -, -, h1, h31⟩ | ⟨c, e, -, -, he1, he2, hval⟩ | ⟨c, e, -, hc, hu, hval⟩
  · exact ⟨h1, h31⟩
  · omega
  · have h9 : digVal e ≤ 9 := digVal_le_9 e hu
    rcases hc with hc | hc <;> omega

theorem dropWhile_head_not (p : Char → Bool) : ∀ (l : List Char) (x : Char)
    (xs : List Char), l.dropWhile p = x :: xs → p x = false := by
  intro l
  induction l with
  | nil => intro x xs h; simp [List.dropWhile] at h
  | cons a as ih =>
    intro x xs h
    rw [List.dropWhile_cons] at h
    by_cases hp : p a
    · rw [if_pos hp] at h
      exact ih x xs h
    · rw [if_neg hp] at h
      obtain ⟨rfl, rfl⟩ := List.cons.inj h
      exact Bool.eq_false_iff.mpr hp

theorem takeWhile_of_append (ms ds : List Char)
    (hms : ∀ c ∈ ms, (c != '-') = true) :
    (ms ++ '-' :: ds).takeWhile (fun c => c != '-') = ms := by
  induction ms with
  | nil => simp [List.takeWhile_cons]
  | cons a as ih =>
    have ha := hms a (by simp)
    rw [List.cons_append, List.takeWhile_cons, if_pos ha,
      ih (fun c hc => hms c (by simp [hc]))]

theorem drop_of_append (ms ds : List Char) :
    (ms ++ '-' :: ds).drop (ms.length + 1) = ds := by
  rw [List.append_cons]
  exact List.drop_left' (by simp)

theorem month_token_no_dash (ms : List Char) (m : Nat)
    (hm : monthOfToken ms = some m) : ∀ c ∈ ms, (c != '-') = true := by
  intro c hc
  obtain ⟨h48, -⟩ := (isDigitCh_iff c).mp (((month_token_iff ms m).mp hm).2.1 c hc)
  rw [bne_iff_ne]
  intro hceq
  rw [hceq] at h48
  exact absurd h48 (by decide)

theorem parseMD_iff (rest : List Char) (m d : Nat) :
    parseMD rest = some (m, d) ↔
      ∃ ms ds, rest = ms ++ '-' :: ds ∧ monthOfToken ms = some m
        ∧ dayOfToken ds = some d := by
  constructor
  · intro h
    simp only [parseMD] at h
    cases hm : monthOfToken (rest.takeWhile (fun c => c != '-')) with
    | none => rw [hm] at h; simp at h
    | some m' =>
      cases hd : dayOfToken (rest.drop ((rest.takeWhile (fun c => c != '-')).length + 1)) with
      | none => rw [hm, hd] at h; simp at h
      | some d' =>
        rw [hm, hd] at h
        simp only [Option.some.injEq, Prod.mk.injEq] at h
        obtain ⟨rfl, rfl⟩ := h
        have htd := List.takeWhile_append_dropWhile (p := fun c => c != '-')
          (l := rest)
        generalize hT : List.takeWhile (fun c => c != '-') rest = T at hm hd htd
        cases hdw : rest.dropWhile (fun c => c != '-') with
        | nil =>
          exfalso
          rw [hdw, List.append_nil] at htd
          have hlen : rest.length = T.length := by rw [← htd]
          have hdrop : rest.drop (T.length + 1) = [] :=
            List.drop_eq_nil_of_le (by omega)
          rw [hdrop] at hd
          simp [dayOfToken] at hd
        | cons x xs =>
          have hx : x = '-' := by
            have := dropWhile_head_not (fun c => c != '-') rest x xs hdw
            simpa using this
          subst hx
          rw [hdw] at htd
          have hxs : rest.drop (T.length + 1) = xs := by
            rw [← htd]
            exact drop_of_append _ _
          rw [hxs] at hd
          exact ⟨T, xs, htd.symm, hm, hd⟩
  · rintro ⟨ms, ds, rfl, hm, hd⟩
    have hnd := month_token_no_dash ms m hm
    simp only [parseMD, takeWhile_of_append ms ds hnd, drop_of_append, hm, hd]

theorem isLeapPy_iff (y : Nat) :
    isLeapPy y = true ↔ (y % 4 = 0 ∧ (¬ y % 100 = 0 ∨ y % 400 = 0)) := by
  simp [isLeapPy, Bool.and_eq_true, Bool.or_eq_true]

theorem days_in_month_eq_monthLength (y m : Nat) (h1 : 1 ≤ m) (h2 : m ≤ 12) :
    days_in_month y m = monthLength y m := by
  by_cases hm2 : m = 2
  · subst hm2
    by_cases hl : isLeapPy y = true
    · have hc := (isLeapPy_iff y).mp hl
      simp [days_in_month, monthLength, hl, hc]
    · have hl' : isLeapPy y = false := Bool.eq_false_iff.mpr hl
      have hc : ¬(y % 4 = 0 ∧ (¬ y % 100 = 0 ∨ y % 400 = 0)) :=
        fun hx => hl ((isLeapPy_iff y).mpr hx)
      simp [days_in_month, monthLength, hl', hc, daysInMonthTable]
  · simp only [days_in_month]
    rw [if_neg (fun hc => hm2 hc.1)]
    interval_cases m <;>
      first
      | exact absurd rfl hm2
      | simp [monthLength, daysInMonthTable]

theorem monthLength_le_31 (y m : Nat) : monthLength y m ≤ 31 := by
  unfold monthLength
  split_ifs <;> omega

/-- C1 (amended): the date validator returns true iff the input is a
four-digit year of value at least 1 (digits from any Unicode decimal-digit
script), a dash, a one-or-two-digit ASCII month, a dash, and a day of one
of the accepted shapes — one or two ASCII digits, a space-padded single
ASCII digit, or an ASCII `1`/`2` followed by any Unicode decimal digit —
denoting a real calendar date; `2023-01-01` yields true, `2023-02-30`
yields false, `2023-1-1` yields true, and the space-padded `2023-1- 1`
also yields true.  The validator is a total boolean function: no exception
escapes. -/
theorem date_validator_lenient :
    (∀ s : String, is_valid_date_format s = true ↔ PyValidDate s)
    ∧ is_valid_date_format "2023-01-01" = true
    ∧ is_valid_date_format "2023-02-30" = false
    ∧ is_valid_date_format "2023-1-1" = true
    ∧ is_valid_date_format "2023-1- 1" = true
    ∧ is_valid_date_format "٢٠٢٣-1-1" = true := by
  refine ⟨fun s => ?_, by decide, by decide, by decide, by decide, by decide⟩
  constructor
  · intro h
    have h' : (parseDateYMD s).isSome = true := h
    obtain ⟨⟨y, m, d⟩, hp⟩ := Option.isSome_iff_exists.mp h'
    simp only [parseDateYMD] at hp
    rcases hl : s.toList with _ | ⟨c1, _ | ⟨c2, _ | ⟨c3, _ | ⟨c4, _ | ⟨c5, rest⟩⟩⟩⟩⟩
    · rw [hl] at hp; simp [parseDateList] at hp
    · rw [hl] at hp; simp [parseDateList] at hp
    · rw [hl] at hp; simp [parseDateList] at hp
    · rw [hl] at hp; simp [parseDateList] at hp
    · rw [hl] at hp; simp [parseDateList] at hp
    rw [hl] at hp
    simp only [parseDateList] at hp
    split_ifs at hp with hguard
    obtain ⟨⟨⟨⟨hg1, hg2⟩, hg3⟩, hg4⟩, hg5⟩ :
        (((isDigitUni c1 = true ∧ isDigitUni c2 = true) ∧ isDigitUni c3 = true)
          ∧ isDigitUni c4 = true) ∧ c5 = '-' := by
      simpa [Bool.and_eq_true] using hguard
    subst hg5
    cases hmd : parseMD rest with
    | none => rw [hmd] at hp; simp at hp
    | some md =>
      obtain ⟨m', d'⟩ := md
      rw [hmd] at hp
      dsimp only at hp
      split_ifs at hp with hcal
      obtain ⟨hy, hm', hd'⟩ : natOfDigits [c1, c2, c3, c4] = y ∧ m' = m ∧ d' = d := by
        simpa using hp
      rw [hm', hd'] at hmd hcal
      obtain ⟨ms, ds, hrest, hmTok, hdTok⟩ := (parseMD_iff rest m d).mp hmd
      obtain ⟨hmlen, hmdig, hmval, hm1, hm12⟩ := (month_token_iff ms m).mp hmTok
      have hdshape := (day_token_iff ds d).mp hdTok
      refine ⟨[c1, c2, c3, c4], ms, ds, y, m, d, ?_, rfl, ?_, hy,
        hmlen, hmdig, hmval, hdshape, hy ▸ hcal.1, hm1, hm12,
        (dayShape_bounds ds d hdshape).1, ?_⟩
      · rw [hl, hrest]
        simp
      · intro x hx
        rcases (by simpa using hx : x = c1 ∨ x = c2 ∨ x = c3 ∨ x = c4)
          with rfl | rfl | rfl | rfl
        · exact (isDigitUni_iff x).mp hg1
        · exact (isDigitUni_iff x).mp hg2
        · exact (isDigitUni_iff x).mp hg3
        · exact (isDigitUni_iff x).mp hg4
      · have := hcal.2
        rw [hy, days_in_month_eq_monthLength y m hm1 hm12] at this
        exact this
  · rintro ⟨ys, ms, ds, y, m, d, hsplit, hylen, hydig, hyval, hmlen, hmdig, hmval,
      hdshape, hy1, hm1, hm12, hd1, hdml⟩
    obtain ⟨a1, a2, a3, a4, rfl⟩ : ∃ a1 a2 a3 a4, ys = [a1, a2, a3, a4] := by
      rcases ys with _ | ⟨a1, _ | ⟨a2, _ | ⟨a3, _ | ⟨a4, _ | ⟨a5, tl⟩⟩⟩⟩⟩ <;>
        simp at hylen
      exact ⟨a1, a2, a3, a4, rfl⟩
    have hsplit' : s.toList = a1 :: a2 :: a3 :: a4 :: '-' :: (ms ++ '-' :: ds) := by
      simpa using hsplit
    have hg : ∀ x ∈ [a1, a2, a3, a4], isDigitUni x = true :=
      fun x hx => (isDigitUni_iff x).mpr (hydig x hx)
    have hgd : (isDigitUni a1 && isDigitUni a2 && isDigitUni a3 && isDigitUni a4
        && ('-' == '-')) = true := by
      simp [hg a1 (by simp), hg a2 (by simp), hg a3 (by simp), hg a4 (by simp)]
    have hmd : parseMD (ms ++ '-' :: ds) = some (m, d) :=
      (parseMD_iff _ m d).mpr ⟨ms, ds, rfl,
        (month_token_iff ms m).mpr ⟨hmlen, hmdig, hmval, hm1, hm12⟩,
        (day_token_iff ds d).mpr hdshape⟩
    simp only [is_valid_date_format, parseDateYMD, hsplit', parseDateList, hgd,
      hmd, hyval, days_in_month_eq_monthLength y m hm1 hm12]
    simp [hy1, hdml]

/-- C1 counterexample: the code accepts `2023-1-1` (single-digit month and
day), while the claim says the validator accepts only the exact pattern
`YYYY-MM-DD` and that `2023-1-1` yields false. -/
theorem date_validator_strict_counterexample :
    is_valid_date_format "2023-1-1" = true ∧ strictYMD "2023-1-1" = false := by
  decide

instance IsDigitCh.decidable (c : Char) : Decidable (IsDigitCh c) := by
  unfold IsDigitCh
  infer_instance

instance IsDigitU.decidable (c : Char) : Decidable (IsDigitU c) := by
  unfold IsDigitU
  infer_instance

theorem date_validator_lenient_witness :
    is_valid_date_format "2024-02-29" = true :=
  (date_validator_lenient.1 "2024-02-29").mpr
    ⟨['2', '0', '2', '4'], ['0', '2'], ['2', '9'], 2024, 2, 29,
      by decide, by decide, by decide, by decide, by decide, by decide, by decide,
      Or.inl (by decide), by decide, by decide, by decide, by decide, by decide⟩

theorem ticker_suffix_substring_characterisation_witness :
    is_valid_ticker_suffix "AB.TWX" = true :=
  (ticker_suffix_substring_characterisation.1 "AB.TWX").mpr
    (Or.inl ⟨['A', 'B'], ['X'], by decide⟩)
